import Mathlib

/-!
# Verification of the site-clone crawl-and-mirror engine (`src/snapshot.ts`)

This file is a shallow embedding, in Lean 4, of the crawl engine of the
site-clone repository, together with theorems settling the specification
claims about it.

The embedding follows `src/snapshot.ts` (the sequential variant that the
spec was written about):

* `JSURL` models the fields of a WHATWG `URL` object that the program
  reads (`origin`, `hostname`, `pathname`, `href`); URL *parsing* and
  relative-reference *resolution* (`new URL(raw, base)`) are Node
  builtins, external to the repository, and are treated as oracles where
  they occur.
* `slug`, `localHtmlFile`, `extname` embed the utility functions
  (snapshot.ts lines 15-31 and Node's `path.extname`).
* `jsReplaceAll` embeds `String.prototype.replace` with a
  `new RegExp(escapeRegExp(lit), "g")` pattern, i.e. global literal
  substring replacement (the `escapeRegExp` helper makes the pattern
  literal, so the embedding matches on the literal string).
* `assetTarget`, `rewriteImages`, `rewriteAnchors` embed the response
  handler (lines 135-166) and the rewrite passes (lines 206-218, 236-250).
* `crawlAux` / `crawl` embed the `main` BFS loop (lines 82-99) together
  with the enqueue pass at the end of `handlePage` (lines 257-271).

All definitions are computable so that concrete runs can be checked by
`decide` / `rfl`.
-/

set_option autoImplicit false

namespace SiteClone

/-- The page budget (`MAX_PAGES`, snapshot.ts line 11). -/
def MAX_PAGES : Nat := 10

/-- The batch size constant (snapshot.ts line 12).  Its comment says the
program pauses after processing this many pages; the identifier does not
occur anywhere else in `snapshot.ts`. -/
def BATCH_SIZE : Nat := 3

/-- The fields of a WHATWG `URL` object that `snapshot.ts` reads.
`port` is the empty string when the URL carries no explicit port,
mirroring `URL.prototype.port`. -/
structure JSURL where
  scheme : String
  hostname : String
  port : String
  pathname : String
  search : String
  deriving DecidableEq, Repr

namespace JSURL

/-- `URL.prototype.origin` for an http(s)-style URL: scheme, hostname and
(non-default) port. -/
def origin (u : JSURL) : String :=
  u.scheme ++ "://" ++ u.hostname ++ (if u.port = "" then "" else ":" ++ u.port)

/-- `URL.prototype.href`: the serialised URL, which `snapshot.ts` uses as
the identity of a URL for the `crawled` set and queue dedup. -/
def href (u : JSURL) : String :=
  u.origin ++ u.pathname ++ u.search

end JSURL

/-! ## The slugger (snapshot.ts lines 15-28) -/

/-- The JS regex replace `p.replace(/^\/|\/$/g, "")`: with the `g` flag
and this alternation it removes one leading `/` (anchored by `^`) and one
trailing `/` (anchored by `$`), and nothing else. -/
def stripSlashes (p : String) : String :=
  let l₁ : List Char := match p.data with
    | '/' :: t => t
    | l => l
  let l₂ : List Char := if l₁.getLast? = some '/' then l₁.dropLast else l₁
  ⟨l₂⟩

/-- One character of `.replace(/[^a-zA-Z0-9_-]/g, "_")`. -/
def sanitizeChar (c : Char) : Char :=
  if ('a' ≤ c ∧ c ≤ 'z') ∨ ('A' ≤ c ∧ c ≤ 'Z') ∨ ('0' ≤ c ∧ c ≤ '9')
      ∨ c = '_' ∨ c = '-' then c else '_'

/-- `s.replace(/[^a-zA-Z0-9_-]/g, "_")`. -/
def sanitize (s : String) : String :=
  ⟨s.data.map sanitizeChar⟩

/-- `slug` (snapshot.ts lines 15-22).  It reads only `url.pathname`:
`(url.pathname === "/" ? "root" : url.pathname.replace(/^\/|\/$/g, ""))
.replace(/[^a-zA-Z0-9_-]/g, "_") || "index"` (`|| "index"` selects
`"index"` exactly on the empty string). -/
def slug (u : JSURL) : String :=
  let base := if u.pathname = "/" then "root" else stripSlashes u.pathname
  let s := sanitize base
  if s = "" then "index" else s

/-- `localHtmlFile` (snapshot.ts lines 26-28). -/
def localHtmlFile (u : JSURL) : String :=
  slug u ++ ".html"

/-- `isSameSite` (snapshot.ts lines 29-31): origin comparison.  Defined
in the source but never called. -/
def isSameSite (root child : JSURL) : Bool :=
  root.origin = child.origin

/-- The spec's description of the slug, stated on the path string alone:
"root path → `\"root\"`; otherwise strip leading/trailing slash, replace
any character outside `[a-zA-Z0-9_-]` with `_`; empty result →
`\"index\"`". -/
def slugSpec (p : String) : String :=
  if p = "/" then "root"
  else
    let stripped := stripSlashes p
    let replaced : String := ⟨stripped.data.map sanitizeChar⟩
    if replaced = "" then "index" else replaced

/-! ## Node's `path.extname` -/

/-- Index (in `b`) of the last `'.'`, scanning left to right. -/
def lastDotIdx (b : List Char) : Option Nat :=
  (List.range b.length).foldl
    (fun acc i => if b.get? i = some '.' then some i else acc) none

/-- Node's `path.extname`, applied to a pathname as in
`path.extname(u.pathname)`: the extension of the basename (the part after
the last `/`), i.e. the substring from the last `.` on, except that a
leading dot (hidden files) and the special name `".."` yield `""`. -/
def extname (p : String) : String :=
  let b : List Char := (p.data.splitOn '/').getLastD []
  if b = ['.', '.'] then ""
  else
    match lastDotIdx b with
    | some i => if i = 0 then "" else ⟨b.drop i⟩
    | none => ""

/-! ## Global literal replacement

`snapshot.ts` rewrites markup with
`s.replace(new RegExp(escapeRegExp(lit), "g"), rep)`: `escapeRegExp`
(lines 23-25) escapes every regex metacharacter, so the pattern matches
the literal string `lit`, and the `g` flag replaces every
(non-overlapping, left-to-right) occurrence.  `replaceAllFuel` embeds
that scan; the fuel argument (instantiated with the length of the
subject) only makes the recursion structural. -/

/-- One left-to-right scan replacing every occurrence of `pat` by `rep`.
If `pat` is a prefix of the remaining input, emit `rep` and skip past the
match, else keep one character.  `fuel` bounds the number of steps; each
step consumes at least one character, so `s.length` steps suffice. -/
def replaceAllFuel (pat rep : List Char) : Nat → List Char → List Char
  | _, [] => []
  | 0, s => s
  | fuel + 1, c :: rest =>
    if pat ≠ [] ∧ pat.isPrefixOf (c :: rest) then
      rep ++ replaceAllFuel pat rep fuel (List.drop (pat.length - 1) rest)
    else
      c :: replaceAllFuel pat rep fuel rest

/-- `s.replace(new RegExp(escapeRegExp(pat), "g"), rep)`. -/
def jsReplaceAll (s pat rep : String) : String :=
  ⟨replaceAllFuel pat.data rep.data s.data.length s.data⟩

/-- `pat` occurs as a contiguous sublist of `s`. -/
def occursIn (pat : List Char) : List Char → Bool
  | [] => pat.isEmpty
  | c :: rest => pat.isPrefixOf (c :: rest) || occursIn pat rest

/-- No occurrence of `pat` starts inside the `a`-part of `a ++ rest`. -/
def cleanPrefix (pat : List Char) : List Char → List Char → Bool
  | [], _ => true
  | c :: a, rest => !pat.isPrefixOf (c :: (a ++ rest)) && cleanPrefix pat a rest

/-! ## Asset capture and the rewrite passes -/

/-- The image filename `` `${slug(u)}${path.extname(u.pathname)}` ``
(snapshot.ts lines 144 and 210 — the response handler and the image
rewrite pass compute it with the same expression). -/
def imageFname (u : JSURL) : String :=
  slug u ++ extname u.pathname

/-- JS `String.prototype.startsWith`: prefix test on the character
sequence. -/
def strStartsWith (s p : String) : Bool :=
  p.data.isPrefixOf s.data

/-- The response handler's classification (snapshot.ts lines 135-166),
as the path (relative to the output directory) under which the response
body is persisted: content-type prefix `image/` goes to
`images/<slug+ext>`, prefix `text/css` to `css/<slug>.css`, anything
else is ignored. -/
def assetTarget (ctype : String) (u : JSURL) : Option String :=
  if strStartsWith ctype "image/" then some ("images/" ++ imageFname u)
  else if strStartsWith ctype "text/css" then some ("css/" ++ slug u ++ ".css")
  else none

/-- The local reference substituted for an image URL in the markup
(snapshot.ts line 213). -/
def imageLocalRef (u : JSURL) : String :=
  "./images/" ++ imageFname u

/-- One iteration of the image rewrite loop (snapshot.ts lines 206-218):
skip an empty src (`if (!imgURL) continue`), skip an unparsable one (the
`catch`), otherwise globally replace the src string by its local path. -/
def imageStep (parse : String → Option JSURL) (m : String) (imgURL : String) :
    String :=
  if imgURL = "" then m
  else
    match parse imgURL with
    | none => m
    | some u => jsReplaceAll m imgURL (imageLocalRef u)

/-- The image rewrite pass (snapshot.ts lines 206-218).  `parse` is the
oracle for the Node builtin `new URL(imgURL)`; the extracted `imgs` are
`img.src` values, which the browser reports as strings (never `null`,
but possibly empty). -/
def rewriteImages (parse : String → Option JSURL) (imgs : List String)
    (markup : String) : String :=
  imgs.foldl (imageStep parse) markup

/-- One iteration of the anchor rewrite loop (snapshot.ts lines
236-250).  `resolve` is the oracle for `new URL(anchorHref, url.href)`
(base href first); `none` models the `catch` branch.  The extracted
`links` are raw `a.getAttribute("href")` values, `none` for a missing
attribute; the guard `if (!anchorHref) continue` also skips the empty
string.  When the resolved hostname equals the seed's hostname, every
occurrence of `href="<raw>"` is replaced by `href="./<slug>.html"`. -/
def anchorStep (resolve : String → String → Option JSURL)
    (rootURL pageURL : JSURL) (m : String) (oh : Option String) : String :=
  match oh with
  | none => m
  | some h =>
    if h = "" then m
    else
      match resolve (pageURL.href) h with
      | none => m
      | some u =>
        if u.hostname = rootURL.hostname then
          jsReplaceAll m ("href=\"" ++ h ++ "\"")
            ("href=\"./" ++ localHtmlFile u ++ "\"")
        else m

/-- The anchor rewrite pass: the loop of snapshot.ts lines 236-250. -/
def rewriteAnchors (resolve : String → String → Option JSURL)
    (rootURL pageURL : JSURL) (links : List (Option String))
    (markup : String) : String :=
  links.foldl (anchorStep resolve rootURL pageURL) markup

/-! ## The crawl loop (snapshot.ts `main`, lines 82-99, and the enqueue
pass of `handlePage`, lines 257-271)

The `crawled` set of the program is a `Set<string>` of hrefs; we keep
the `JSURL` values, with membership tested on `href`, so that theorems
can speak about the origin/hostname of visited URLs.  URLs are appended
exactly when the program calls `crawled.add`, so the list enumerates the
set in insertion order and its length is the set's size.

`web` is the oracle for one call of `handlePage` up to link discovery:
`web (href url) = none` models a failed navigation (the `catch` at lines
173-177: the page is closed, nothing is written, no links are
discovered) and `some links` a successful one, `links` being the
anchors' hrefs as resolved by `new URL(link, url.href)` (unresolvable
ones are dropped by the `catch` at lines 268-270). -/

/-- Events observable in a run of the loop: `visit` when a URL is handed
to `handlePage` (after `crawled.add`), `sleepMs` for the fixed
`setTimeout` wait inside `handlePage` (line 199, reached only on
successful navigation), and `batchPause` for a pause taken between
batches of pages — the event the `BATCH_SIZE` comment describes. -/
inductive MainEv where
  | visit (h : String)
  | sleepMs (n : Nat)
  | batchPause
  deriving DecidableEq, Repr

/-- The state when the loop exits: the remaining queue, the `crawled`
set (in insertion order), the page files written by `handlePage` (href
of the page, filename relative to the output directory), and the event
trace. -/
structure CrawlResult where
  queue : List JSURL
  crawled : List JSURL
  files : List (String × String)
  trace : List MainEv
  deriving DecidableEq, Repr

/-- `crawled.has(u.href)`. -/
def crawledHas (crawled : List JSURL) (u : JSURL) : Bool :=
  crawled.any (fun v => v.href = u.href)

/-- `crawled.has(h)` for a raw href string. -/
def crawledHasHref (crawled : List JSURL) (h : String) : Bool :=
  crawled.any (fun v => v.href = h)

/-- The enqueue pass at the end of `handlePage` (lines 257-271): a
discovered link is pushed iff its hostname equals the seed's hostname,
it is not already queued (same href) and not already crawled. -/
def enqueueLinks (rootURL : JSURL) (links : List JSURL)
    (queue : List JSURL) (crawled : List JSURL) : List JSURL :=
  links.foldl
    (fun q nextURL =>
      if nextURL.hostname = rootURL.hostname
          ∧ ¬ q.any (fun p => p.href = nextURL.href)
          ∧ ¬ crawledHas crawled nextURL then
        q ++ [nextURL]
      else q)
    queue

/-- The `continue` branch of the loop (lines 87-89): already-crawled
URLs are popped and dropped.  Popping them does not change `crawled`, so
the guard re-checks between pops are no-ops and the pops can be taken
together. -/
def skipCrawled (crawled : List JSURL) : List JSURL → List JSURL
  | [] => []
  | u :: rest => if crawledHas crawled u then skipCrawled crawled rest else u :: rest

/-- The `while (queue.length > 0 && crawled.size < MAX_PAGES)` loop.
`budget` is `maxPages - crawled.size`, the number of further URLs that
may enter `crawled`; the loop exits when it reaches `0` or when the
queue (after dropping already-crawled entries) is empty. -/
def crawlAux (web : String → Option (List JSURL)) (rootURL : JSURL) :
    Nat → List JSURL → List JSURL → List (String × String) → List MainEv →
    CrawlResult
  | 0, queue, crawled, files, tr => ⟨queue, crawled, files, tr⟩
  | budget + 1, queue, crawled, files, tr =>
    match skipCrawled crawled queue with
    | [] => ⟨[], crawled, files, tr⟩
    | u :: rest =>
      let crawled' := crawled ++ [u]
      match web u.href with
      | none =>
        crawlAux web rootURL budget rest crawled' files (tr ++ [.visit u.href])
      | some links =>
        crawlAux web rootURL budget
          (enqueueLinks rootURL links rest crawled')
          crawled'
          (files ++ [(u.href, localHtmlFile u)])
          (tr ++ [.visit u.href, .sleepMs 3000])

/-- A whole run: queue seeded with the root URL, empty `crawled` set. -/
def crawl (web : String → Option (List JSURL)) (rootURL : JSURL)
    (maxPages : Nat) : CrawlResult :=
  crawlAux web rootURL maxPages [rootURL] [] [] []

/-! ## Per-page asynchronous schedules (`handlePage`, lines 114-254)

`handlePage` runs under Node's single-threaded cooperative scheduler.
The response handler (lines 135-166) fires once per qualifying response
while the page is open and starts an asynchronous write task, pushing
its promise onto `assetPromises`; `await Promise.all(assetPromises)`
(line 180) waits for the promises in the array *at that moment*; the
markup is serialised and, after the fixed 3-second wait and `page.close`
(lines 199-201), rewritten and written (line 254).  Responses may keep
arriving between the `Promise.all` and `page.close` (the page is still
open during `evaluate`, `content` and the wait), and nothing awaits the
write tasks they start.

A `PageSchedule` records, in execution order, the events of one page:
which orderings the code *enforces* is captured by `legalSchedule`; any
trace it accepts is an interleaving the code cannot exclude. -/

inductive PageEv where
  | respond (a : String)
  | writeDone (a : String)
  | awaitAssets
  | persistHtml
  deriving DecidableEq, Repr

/-- Number of occurrences of an event in a schedule. -/
def countEv (tr : List PageEv) (e : PageEv) : Nat :=
  tr.count e

/-- Index of the first occurrence of an event (`tr.length` if absent). -/
def idxOf : List PageEv → PageEv → Nat
  | [], _ => 0
  | x :: rest, e => if x = e then 0 else idxOf rest e + 1

/-- The asset names responded to in a schedule. -/
def assetsOf (tr : List PageEv) : List String :=
  tr.filterMap fun e =>
    match e with
    | .respond a => some a
    | _ => none

/-- The orderings `handlePage` enforces on a successfully navigated
page's events:
* exactly one `awaitAssets` (line 180) and one `persistHtml` (line 254),
  in program order;
* each asset's response handler fires at most once and only while the
  page is open, i.e. before the markup write;
* a write completion follows the response that started the write;
* `Promise.all` semantics: a write started before `awaitAssets`
  completes before `awaitAssets` resolves.
No constraint relates `persistHtml` to the completion of a write whose
response arrived *after* `awaitAssets` — the code never awaits the
promises pushed after line 180. -/
def legalSchedule (tr : List PageEv) : Bool :=
  (countEv tr .awaitAssets == 1) &&
  (countEv tr .persistHtml == 1) &&
  decide (idxOf tr .awaitAssets < idxOf tr .persistHtml) &&
  (assetsOf tr).all fun a =>
    (countEv tr (.respond a) == 1) &&
    (countEv tr (.writeDone a) ≤ 1) &&
    ((countEv tr (.writeDone a) == 0) ||
      decide (idxOf tr (.respond a) < idxOf tr (.writeDone a))) &&
    decide (idxOf tr (.respond a) < idxOf tr .persistHtml) &&
    (!decide (idxOf tr (.respond a) < idxOf tr .awaitAssets) ||
      ((countEv tr (.writeDone a) == 1) &&
        decide (idxOf tr (.writeDone a) < idxOf tr .awaitAssets)))

/-- A schedule the code permits: the image response `"hero"` arrives
during navigation and its write is awaited, but a second response
`"late"` arrives after the `Promise.all` snapshot (e.g. during
`page.evaluate`), and its write completes only after the markup file is
written. -/
def lateWriteTrace : List PageEv :=
  [.respond "hero", .writeDone "hero", .awaitAssets,
   .respond "late", .persistHtml, .writeDone "late"]

/-! ## Lemmas about global literal replacement -/

/-- Canonical fuel: one unit per character of the subject. -/
def replaceAllL (pat rep s : List Char) : List Char :=
  replaceAllFuel pat rep s.length s

theorem isPrefixOf_append_self (p t : List Char) : p.isPrefixOf (p ++ t) = true := by
  induction p with
  | nil => simp [List.isPrefixOf]
  | cons c cs ih => simp [List.isPrefixOf, ih]

theorem replaceAllFuel_nil (pat rep : List Char) (f : Nat) :
    replaceAllFuel pat rep f [] = [] := by
  cases f <;> rfl

theorem replaceAllFuel_congr (pat rep : List Char) :
    ∀ f g s, s.length ≤ f → s.length ≤ g →
      replaceAllFuel pat rep f s = replaceAllFuel pat rep g s := by
  intro f
  induction f using Nat.strong_induction_on with
  | _ f ih =>
    intro g s hf hg
    cases s with
    | nil => rw [replaceAllFuel_nil, replaceAllFuel_nil]
    | cons c rest =>
      cases f with
      | zero => simp at hf
      | succ f' =>
        cases g with
        | zero => simp at hg
        | succ g' =>
          simp only [replaceAllFuel]
          by_cases hcond : pat ≠ [] ∧ pat.isPrefixOf (c :: rest)
          · rw [if_pos hcond, if_pos hcond]
            have hd : (List.drop (pat.length - 1) rest).length ≤ rest.length := by
              rw [List.length_drop]; omega
            have h1 : (List.drop (pat.length - 1) rest).length ≤ f' := by
              simp at hf; omega
            have h2 : (List.drop (pat.length - 1) rest).length ≤ g' := by
              simp at hg; omega
            rw [ih f' (by omega) g' _ h1 h2]
          · rw [if_neg hcond, if_neg hcond]
            have h1 : rest.length ≤ f' := by simp at hf; omega
            have h2 : rest.length ≤ g' := by simp at hg; omega
            rw [ih f' (by omega) g' rest h1 h2]

theorem replaceAllFuel_eq_canonical (pat rep : List Char) (f : Nat) (s : List Char)
    (h : s.length ≤ f) : replaceAllFuel pat rep f s = replaceAllL pat rep s :=
  replaceAllFuel_congr pat rep f s.length s h le_rfl

theorem replaceAllFuel_no_occ (pat rep : List Char) :
    ∀ f s, occursIn pat s = false → replaceAllFuel pat rep f s = s := by
  intro f
  induction f with
  | zero => intro s _; cases s <;> rfl
  | succ f ih =>
    intro s h
    cases s with
    | nil => rfl
    | cons c rest =>
      simp only [occursIn, Bool.or_eq_false_iff] at h
      simp only [replaceAllFuel]
      rw [if_neg (by simp [h.1])]
      rw [ih rest h.2]

theorem replaceAllL_no_occ (pat rep s : List Char) (h : occursIn pat s = false) :
    replaceAllL pat rep s = s :=
  replaceAllFuel_no_occ pat rep s.length s h

theorem replaceAllL_skip (pat rep : List Char) :
    ∀ a s, cleanPrefix pat a s = true →
      replaceAllL pat rep (a ++ s) = a ++ replaceAllL pat rep s := by
  intro a
  induction a with
  | nil => intro s _; simp
  | cons c a' ih =>
    intro s h
    simp only [cleanPrefix, Bool.and_eq_true, Bool.not_eq_true'] at h
    show replaceAllFuel pat rep ((c :: (a' ++ s)).length) (c :: (a' ++ s)) = _
    simp only [List.length_cons, replaceAllFuel]
    rw [if_neg (by simp [h.1])]
    show c :: replaceAllL pat rep (a' ++ s) = _
    rw [ih s h.2]
    rfl

theorem replaceAllL_head (pat rep : List Char) (hp : pat ≠ []) (t : List Char) :
    replaceAllL pat rep (pat ++ t) = rep ++ replaceAllL pat rep t := by
  match pat, hp with
  | p :: ps, _ =>
    show replaceAllFuel (p :: ps) rep (((p :: ps) ++ t).length) (p :: (ps ++ t)) = _
    have hlen : ((p :: ps) ++ t).length = (ps ++ t).length + 1 := by simp
    rw [hlen]
    simp only [replaceAllFuel]
    rw [if_pos ⟨by simp, isPrefixOf_append_self (p :: ps) t⟩]
    have hdrop : List.drop ((p :: ps).length - 1) (ps ++ t) = t := by
      simp only [List.length_cons, Nat.add_sub_cancel]
      exact List.drop_left ps t
    rw [hdrop]
    rw [replaceAllFuel_eq_canonical _ _ _ _ (by simp)]

theorem replaceAllL_two (pat rep a b c : List Char) (hp : pat ≠ [])
    (ha : cleanPrefix pat a (pat ++ (b ++ (pat ++ c))) = true)
    (hb : cleanPrefix pat b (pat ++ c) = true)
    (hc : occursIn pat c = false) :
    replaceAllL pat rep (a ++ (pat ++ (b ++ (pat ++ c)))) =
      a ++ (rep ++ (b ++ (rep ++ c))) := by
  rw [replaceAllL_skip pat rep a _ ha]
  rw [replaceAllL_head pat rep hp]
  rw [replaceAllL_skip pat rep b _ hb]
  rw [replaceAllL_head pat rep hp]
  rw [replaceAllL_no_occ pat rep c hc]

/-! ## Lemmas about the crawl loop -/

theorem crawledHas_eq_href (c : List JSURL) (u : JSURL) :
    crawledHas c u = crawledHasHref c u.href := rfl

theorem crawledHasHref_append_false (c : List JSURL) (u : JSURL) (h : String)
    (hf : crawledHasHref (c ++ [u]) h = false) : crawledHasHref c h = false := by
  simp only [crawledHasHref, List.any_append, Bool.or_eq_false_iff] at hf
  exact hf.1

theorem crawledHasHref_append_self (c : List JSURL) (u : JSURL) :
    crawledHasHref (c ++ [u]) u.href = true := by
  simp [crawledHasHref]

theorem skipCrawled_mem (c : List JSURL) :
    ∀ q v, v ∈ skipCrawled c q → v ∈ q := by
  intro q
  induction q with
  | nil => intro v hv; simp [skipCrawled] at hv
  | cons u rest ih =>
    intro v hv
    simp only [skipCrawled] at hv
    by_cases hc : crawledHas c u = true
    · rw [if_pos hc] at hv
      exact List.mem_cons_of_mem u (ih v hv)
    · rw [if_neg hc] at hv
      exact hv

theorem skipCrawled_head (c : List JSURL) :
    ∀ q u rest, skipCrawled c q = u :: rest → crawledHas c u = false := by
  intro q
  induction q with
  | nil => intro u rest h; simp [skipCrawled] at h
  | cons w q' ih =>
    intro u rest h
    simp only [skipCrawled] at h
    by_cases hc : crawledHas c w = true
    · rw [if_pos hc] at h
      exact ih u rest h
    · rw [if_neg hc] at h
      cases h
      exact Bool.of_not_eq_true hc

theorem enqueueLinks_mem (rootURL : JSURL) :
    ∀ (links q c : List JSURL) (v : JSURL),
      v ∈ enqueueLinks rootURL links q c →
      v ∈ q ∨ (v.hostname = rootURL.hostname ∧ crawledHas c v = false) := by
  intro links
  induction links with
  | nil => intro q c v hv; exact Or.inl hv
  | cons l ls ih =>
    intro q c v hv
    have hv' : v ∈ enqueueLinks rootURL ls
        (if l.hostname = rootURL.hostname
            ∧ ¬ q.any (fun p => p.href = l.href)
            ∧ ¬ crawledHas c l then q ++ [l] else q) c := hv
    rcases ih _ c v hv' with hq | hgood
    · by_cases hcond : l.hostname = rootURL.hostname
          ∧ ¬ q.any (fun p => p.href = l.href) ∧ ¬ crawledHas c l
      · rw [if_pos hcond] at hq
        rcases List.mem_append.1 hq with hq | hl
        · exact Or.inl hq
        · have : v = l := by simpa using hl
          subst this
          exact Or.inr ⟨hcond.1, Bool.of_not_eq_true hcond.2.2⟩
      · rw [if_neg hcond] at hq
        exact Or.inl hq
    · exact Or.inr hgood

theorem crawlAux_hostname (web : String → Option (List JSURL)) (rootURL : JSURL) :
    ∀ (b : Nat) (queue crawled : List JSURL) (files : List (String × String))
      (tr : List MainEv),
      (∀ v ∈ queue, v.hostname = rootURL.hostname) →
      (∀ v ∈ crawled, v.hostname = rootURL.hostname) →
      ∀ u ∈ (crawlAux web rootURL b queue crawled files tr).crawled,
        u.hostname = rootURL.hostname := by
  intro b
  induction b with
  | zero => intro queue crawled files tr _ hc u hu; exact hc u hu
  | succ b ih =>
    intro queue crawled files tr hq hc u hu
    rcases hsk : skipCrawled crawled queue with _ | ⟨w, rest⟩
    · simp only [crawlAux, hsk] at hu
      exact hc u hu
    · have hwq : ∀ v ∈ w :: rest, v ∈ queue := by
        intro v hv
        exact skipCrawled_mem crawled queue v (by rw [hsk]; exact hv)
      have hw : w.hostname = rootURL.hostname :=
        hq w (hwq w (List.mem_cons_self w rest))
      have hrest : ∀ v ∈ rest, v.hostname = rootURL.hostname := fun v hv =>
        hq v (hwq v (List.mem_cons_of_mem w hv))
      have hc' : ∀ v ∈ crawled ++ [w], v.hostname = rootURL.hostname := by
        intro v hv
        rcases List.mem_append.1 hv with h | h
        · exact hc v h
        · have hvw : v = w := by simpa using h
          rw [hvw]; exact hw
      cases hweb : web w.href with
      | none =>
        simp only [crawlAux, hsk, hweb] at hu
        exact ih rest (crawled ++ [w]) files (tr ++ [.visit w.href]) hrest hc' u hu
      | some links =>
        simp only [crawlAux, hsk, hweb] at hu
        refine ih _ (crawled ++ [w]) _ _ ?_ hc' u hu
        intro v hv
        rcases enqueueLinks_mem rootURL links rest (crawled ++ [w]) v hv with h | h
        · exact hrest v h
        · exact h.1

theorem crawlAux_budget (web : String → Option (List JSURL)) (rootURL : JSURL) :
    ∀ (b : Nat) (queue crawled : List JSURL) (files : List (String × String))
      (tr : List MainEv),
      (crawlAux web rootURL b queue crawled files tr).crawled.length
          ≤ crawled.length + b
      ∧ ((crawlAux web rootURL b queue crawled files tr).queue = []
          ∨ (crawlAux web rootURL b queue crawled files tr).crawled.length
              = crawled.length + b) := by
  intro b
  induction b with
  | zero =>
    intro queue crawled files tr
    exact ⟨by simp [crawlAux], Or.inr (by simp [crawlAux])⟩
  | succ b ih =>
    intro queue crawled files tr
    rcases hsk : skipCrawled crawled queue with _ | ⟨w, rest⟩
    · refine ⟨?_, Or.inl ?_⟩
      · simp only [crawlAux, hsk]
        omega
      · simp only [crawlAux, hsk]
    · cases hweb : web w.href with
      | none =>
        have h := ih rest (crawled ++ [w]) files (tr ++ [MainEv.visit w.href])
        rw [List.length_append, List.length_singleton] at h
        simp only [crawlAux, hsk, hweb]
        refine ⟨by omega, ?_⟩
        rcases h.2 with h2 | h2
        · exact Or.inl h2
        · exact Or.inr (by omega)
      | some links =>
        have h := ih (enqueueLinks rootURL links rest (crawled ++ [w]))
          (crawled ++ [w]) (files ++ [(w.href, localHtmlFile w)])
          (tr ++ [MainEv.visit w.href, MainEv.sleepMs 3000])
        rw [List.length_append, List.length_singleton] at h
        simp only [crawlAux, hsk, hweb]
        refine ⟨by omega, ?_⟩
        rcases h.2 with h2 | h2
        · exact Or.inl h2
        · exact Or.inr (by omega)

theorem crawlAux_files (web : String → Option (List JSURL)) (rootURL : JSURL) :
    ∀ (b : Nat) (queue crawled : List JSURL) (files : List (String × String))
      (tr : List MainEv),
      ∀ fe ∈ (crawlAux web rootURL b queue crawled files tr).files,
        fe ∈ files ∨ crawledHasHref crawled fe.1 = false := by
  intro b
  induction b with
  | zero => intro queue crawled files tr fe hfe; exact Or.inl hfe
  | succ b ih =>
    intro queue crawled files tr fe hfe
    rcases hsk : skipCrawled crawled queue with _ | ⟨w, rest⟩
    · simp only [crawlAux, hsk] at hfe
      exact Or.inl hfe
    · have hwc : crawledHas crawled w = false := skipCrawled_head crawled queue w rest hsk
      cases hweb : web w.href with
      | none =>
        simp only [crawlAux, hsk, hweb] at hfe
        rcases ih rest (crawled ++ [w]) files (tr ++ [.visit w.href]) fe hfe with h | h
        · exact Or.inl h
        · exact Or.inr (crawledHasHref_append_false crawled w fe.1 h)
      | some links =>
        simp only [crawlAux, hsk, hweb] at hfe
        rcases ih _ (crawled ++ [w]) (files ++ [(w.href, localHtmlFile w)]) _ fe hfe with h | h
        · rcases List.mem_append.1 h with h1 | h1
          · exact Or.inl h1
          · have : fe = (w.href, localHtmlFile w) := by simpa using h1
            rw [this]
            exact Or.inr hwc
        · exact Or.inr (crawledHasHref_append_false crawled w fe.1 h)

theorem crawlAux_crawled_ext (web : String → Option (List JSURL)) (rootURL : JSURL) :
    ∀ (b : Nat) (queue crawled : List JSURL) (files : List (String × String))
      (tr : List MainEv),
      ∃ ext, (crawlAux web rootURL b queue crawled files tr).crawled = crawled ++ ext
        ∧ ∀ v ∈ ext, crawledHas crawled v = false := by
  intro b
  induction b with
  | zero =>
    intro queue crawled files tr
    exact ⟨[], by simp [crawlAux], by intro v hv; simp at hv⟩
  | succ b ih =>
    intro queue crawled files tr
    rcases hsk : skipCrawled crawled queue with _ | ⟨w, rest⟩
    · exact ⟨[], by simp [crawlAux, hsk], by intro v hv; simp at hv⟩
    · have hwc : crawledHas crawled w = false := skipCrawled_head crawled queue w rest hsk
      have step : ∀ (queue' : List JSURL) (files' : List (String × String))
          (tr' : List MainEv),
          ∃ ext, (crawlAux web rootURL b queue' (crawled ++ [w]) files' tr').crawled
              = crawled ++ ext
            ∧ ∀ v ∈ ext, crawledHas crawled v = false := by
        intro queue' files' tr'
        rcases ih queue' (crawled ++ [w]) files' tr' with ⟨ext', heq, hext⟩
        refine ⟨w :: ext', ?_, ?_⟩
        · rw [heq, List.append_assoc]; rfl
        · intro v hv
          rcases List.mem_cons.1 hv with hvw | hv'
          · rw [hvw]; exact hwc
          · have := hext v hv'
            rw [crawledHas_eq_href] at this ⊢
            exact crawledHasHref_append_false crawled w v.href this
      cases hweb : web w.href with
      | none =>
        simpa only [crawlAux, hsk, hweb] using step rest files (tr ++ [.visit w.href])
      | some links =>
        simpa only [crawlAux, hsk, hweb] using
          step (enqueueLinks rootURL links rest (crawled ++ [w]))
            (files ++ [(w.href, localHtmlFile w)]) (tr ++ [.visit w.href, .sleepMs 3000])

theorem crawlAux_no_batchPause (web : String → Option (List JSURL)) (rootURL : JSURL) :
    ∀ (b : Nat) (queue crawled : List JSURL) (files : List (String × String))
      (tr : List MainEv),
      ((crawlAux web rootURL b queue crawled files tr).trace).count MainEv.batchPause
        = tr.count MainEv.batchPause := by
  intro b
  induction b with
  | zero => intro queue crawled files tr; rfl
  | succ b ih =>
    intro queue crawled files tr
    rcases hsk : skipCrawled crawled queue with _ | ⟨w, rest⟩
    · simp only [crawlAux, hsk]
    · cases hweb : web w.href with
      | none =>
        simp only [crawlAux, hsk, hweb]
        rw [ih rest (crawled ++ [w]) files (tr ++ [MainEv.visit w.href])]
        simp [List.count_append, List.count_cons]
      | some links =>
        simp only [crawlAux, hsk, hweb]
        rw [ih (enqueueLinks rootURL links rest (crawled ++ [w])) (crawled ++ [w])
          (files ++ [(w.href, localHtmlFile w)])
          (tr ++ [MainEv.visit w.href, MainEv.sleepMs 3000])]
        simp [List.count_append, List.count_cons]

/-! ## Concrete fixtures for counterexamples and witnesses -/

/-- A seed URL `https://example.com/`. -/
def seedURL : JSURL := ⟨"https", "example.com", "", "/", ""⟩

/-- A URL on the seed's hostname but with a different scheme, hence a
different origin: `http://example.com/evil`. -/
def crossSchemeURL : JSURL := ⟨"http", "example.com", "", "/evil", ""⟩

/-- A site in which the seed page links to `crossSchemeURL` and every
other page has no links. -/
def crossSchemeWeb (h : String) : Option (List JSURL) :=
  if h = "https://example.com/" then some [crossSchemeURL] else some []

/-- A four-page chain `/` → `/p1` → `/p2` → `/p3` on the seed's site. -/
def chainWeb (h : String) : Option (List JSURL) :=
  if h = "https://example.com/" then some [⟨"https", "example.com", "", "/p1", ""⟩]
  else if h = "https://example.com/p1" then some [⟨"https", "example.com", "", "/p2", ""⟩]
  else if h = "https://example.com/p2" then some [⟨"https", "example.com", "", "/p3", ""⟩]
  else some []

/-- `https://x/logo.png`, the asset URL of the spec's image scenario. -/
def logoURL : JSURL := ⟨"https", "x", "", "/logo.png", ""⟩

/-- The `new URL` oracle restricted to the logo URL. -/
def logoParse (s : String) : Option JSURL :=
  if s = "https://x/logo.png" then some logoURL else none

/-- Resolution oracle for an absolute anchor href on the seed's hostname
but with the `http` scheme (per WHATWG, an absolute reference resolves
to itself regardless of the base). -/
def crossAnchorResolve (_base h : String) : Option JSURL :=
  if h = "http://example.com/a" then some ⟨"http", "example.com", "", "/a", ""⟩
  else none

/-! ## Claims -/

/-- **C1, counterexample.** The claim says a discovered link is enqueued
only if its resolved *origin* equals the seed's origin, so every visited
URL shares the seed's origin.  The code compares `hostname`s (snapshot.ts
line 262; the origin-comparing `isSameSite` at lines 29-31 is never
called): crawling `https://example.com/` whose page links to
`http://example.com/evil` visits a URL whose origin differs from the
seed's. -/
theorem crawl_origin_claim_counterexample :
    crossSchemeURL ∈ (crawl crossSchemeWeb seedURL MAX_PAGES).crawled
      ∧ crossSchemeURL.origin ≠ seedURL.origin := by
  decide

/-- **C1, amended.** Site-scope containment holds for *hostnames*: a
discovered link is enqueued only if its resolved hostname equals the
seed's hostname, and every URL in the final visited set shares the
seed's hostname. -/
theorem crawl_hostname_containment
    (web : String → Option (List JSURL)) (rootURL : JSURL) (N : Nat) :
    (∀ (links q c : List JSURL) (v : JSURL),
        v ∈ enqueueLinks rootURL links q c →
        v ∈ q ∨ v.hostname = rootURL.hostname)
    ∧ ∀ u ∈ (crawl web rootURL N).crawled, u.hostname = rootURL.hostname := by
  constructor
  · intro links q c v hv
    rcases enqueueLinks_mem rootURL links q c v hv with h | h
    · exact Or.inl h
    · exact Or.inr h.1
  · intro u hu
    refine crawlAux_hostname web rootURL N [rootURL] [] [] [] ?_ ?_ u hu
    · intro v hv
      have hv' : v = rootURL := by simpa using hv
      rw [hv']
    · intro v hv
      simp at hv

/-- Witness for `crawl_hostname_containment` at the cross-scheme run:
the visited URL `http://example.com/evil` does share the seed's
hostname. -/
theorem crawl_hostname_containment_witness :
    crossSchemeURL ∈ (crawl crossSchemeWeb seedURL MAX_PAGES).crawled
      ∧ crossSchemeURL.hostname = seedURL.hostname :=
  ⟨by decide,
    (crawl_hostname_containment crossSchemeWeb seedURL MAX_PAGES).2
      crossSchemeURL (by decide)⟩

/-- **C2.** For any site and any budget `N`, the final visited set has
at most `N` URLs, and when the loop exits either the queue is empty or
the visited count equals `N` — exactly the guard
`while (queue.length > 0 && crawled.size < MAX_PAGES)` (line 85),
however many URLs remain queued. -/
theorem crawl_budget_and_termination
    (web : String → Option (List JSURL)) (rootURL : JSURL) (N : Nat) :
    (crawl web rootURL N).crawled.length ≤ N
    ∧ ((crawl web rootURL N).queue = []
        ∨ (crawl web rootURL N).crawled.length = N) := by
  have h := crawlAux_budget web rootURL N [rootURL] [] [] []
  simpa using h

/-- **C3.** `slug` is a pure function of the URL's path alone (scheme,
host, port and query are never read), it agrees with the spec's
description (root path → `"root"`; otherwise strip the leading/trailing
slash and replace every character outside `[a-zA-Z0-9_-]` with `"_"`;
empty result → `"index"`), and it maps the three example URLs as the
spec states. -/
theorem slug_path_only_and_examples :
    (∀ u v : JSURL, u.pathname = v.pathname → slug u = slug v)
    ∧ (∀ u : JSURL, slug u = slugSpec u.pathname)
    ∧ slug ⟨"https", "x", "", "/column/", ""⟩ = "column"
    ∧ slug ⟨"https", "x", "", "/", ""⟩ = "root"
    ∧ slug ⟨"https", "x", "", "/a/b", "?q=1"⟩ = "a_b" := by
  refine ⟨?_, ?_, by decide, by decide, by decide⟩
  · intro u v h
    simp [slug, h]
  · intro u
    by_cases hp : u.pathname = "/"
    · simp only [slug, slugSpec, hp, if_pos rfl]
      decide
    · simp [slug, slugSpec, hp, sanitize]

/-- Witness for `slug_path_only_and_examples`: two URLs differing in
scheme, host, port and query but sharing the path `/x` get the same
slug. -/
theorem slug_path_only_witness :
    slug ⟨"https", "a.com", "", "/x", ""⟩ = slug ⟨"http", "b.org", "8080", "/x", "?q"⟩ :=
  slug_path_only_and_examples.1
    ⟨"https", "a.com", "", "/x", ""⟩ ⟨"http", "b.org", "8080", "/x", "?q"⟩ rfl

/-- **C4, counterexample.** The claim's concrete example is wrong: a
response with content-type `image/png` at `/logo.png` is saved as
`images/logo_png.png`, not `images/logo.png` — the slug replaces the
`.` of `logo.png` with `_` before the extension is appended (line 144),
and the markup rewrite uses the same name (line 210). -/
theorem image_asset_name_counterexample :
    assetTarget "image/png" logoURL = some "images/logo_png.png"
    ∧ assetTarget "image/png" logoURL ≠ some "images/logo.png"
    ∧ imageLocalRef logoURL = "./images/logo_png.png"
    ∧ imageLocalRef logoURL ≠ "./images/logo.png" := by
  decide

/-- **C4, amended.** Every response with content-type prefix `image/` is
persisted under `images/` with filename `slug(sourceURL)` plus the
original extension from the URL path; the markup rewrite uses the same
filename, so the `logo.png` scenario yields `images/logo_png.png`, with
every markup occurrence of the source URL replaced by
`./images/logo_png.png`. -/
theorem image_asset_naming (ctype : String) (u : JSURL)
    (h : strStartsWith ctype "image/" = true) :
    assetTarget ctype u = some ("images/" ++ imageFname u)
    ∧ imageLocalRef u = "./images/" ++ imageFname u
    ∧ imageFname logoURL = "logo_png.png"
    ∧ rewriteImages logoParse ["https://x/logo.png"]
        "<img src=\"https://x/logo.png\"> <img src=\"https://x/logo.png\">"
      = "<img src=\"./images/logo_png.png\"> <img src=\"./images/logo_png.png\">" := by
  refine ⟨?_, rfl, by decide, by decide⟩
  simp [assetTarget, h]

/-- Witness for `image_asset_naming` at the `image/png` response for
`https://x/logo.png`. -/
theorem image_asset_naming_witness :
    strStartsWith "image/png" "image/" = true
    ∧ (assetTarget "image/png" logoURL = some ("images/" ++ imageFname logoURL)
       ∧ imageLocalRef logoURL = "./images/" ++ imageFname logoURL
       ∧ imageFname logoURL = "logo_png.png"
       ∧ rewriteImages logoParse ["https://x/logo.png"]
           "<img src=\"https://x/logo.png\"> <img src=\"https://x/logo.png\">"
         = "<img src=\"./images/logo_png.png\"> <img src=\"./images/logo_png.png\">") :=
  ⟨by decide, image_asset_naming "image/png" logoURL (by decide)⟩

/-- **C5.** The image pass for a parsed image src is one global literal
replacement with a single fixed local path (lines 206-218): on any
markup it equals `jsReplaceAll` with replacement `./images/<slug+ext>`,
and on a markup containing exactly two occurrences of the URL (the
`cleanPrefix`/`occursIn` hypotheses say no occurrence starts anywhere
else) both occurrences are replaced with that same identical path. -/
theorem image_rewrite_all_occurrences
    (parse : String → Option JSURL) (imgURL : String) (u : JSURL)
    (a b c : String)
    (hparse : parse imgURL = some u) (hne : imgURL ≠ "")
    (ha : cleanPrefix imgURL.data a.data
        (imgURL.data ++ (b.data ++ (imgURL.data ++ c.data))) = true)
    (hb : cleanPrefix imgURL.data b.data (imgURL.data ++ c.data) = true)
    (hc : occursIn imgURL.data c.data = false) :
    (∀ m, rewriteImages parse [imgURL] m = jsReplaceAll m imgURL (imageLocalRef u))
    ∧ rewriteImages parse [imgURL] (a ++ (imgURL ++ (b ++ (imgURL ++ c))))
        = a ++ (imageLocalRef u ++ (b ++ (imageLocalRef u ++ c))) := by
  have hpass : ∀ m, rewriteImages parse [imgURL] m
      = jsReplaceAll m imgURL (imageLocalRef u) := by
    intro m
    simp [rewriteImages, imageStep, hne, hparse]
  refine ⟨hpass, ?_⟩
  rw [hpass]
  have hd : imgURL.data ≠ [] := by
    intro hdata
    exact hne (String.ext hdata)
  apply String.ext
  show replaceAllL imgURL.data (imageLocalRef u).data
      (a ++ (imgURL ++ (b ++ (imgURL ++ c)))).data = _
  simp only [String.data_append]
  exact replaceAllL_two imgURL.data (imageLocalRef u).data a.data b.data c.data
    hd ha hb hc

/-- Witness for `image_rewrite_all_occurrences` on the logo markup with
two occurrences of `https://x/logo.png`. -/
theorem image_rewrite_all_occurrences_witness :
    logoParse "https://x/logo.png" = some logoURL
    ∧ "https://x/logo.png" ≠ ""
    ∧ cleanPrefix "https://x/logo.png".data "<img src=\"".data
        ("https://x/logo.png".data ++ ("\"> <img src=\"".data
          ++ ("https://x/logo.png".data ++ "\">".data))) = true
    ∧ cleanPrefix "https://x/logo.png".data "\"> <img src=\"".data
        ("https://x/logo.png".data ++ "\">".data) = true
    ∧ occursIn "https://x/logo.png".data "\">".data = false
    ∧ rewriteImages logoParse ["https://x/logo.png"]
        ("<img src=\"" ++ ("https://x/logo.png" ++ ("\"> <img src=\""
          ++ ("https://x/logo.png" ++ "\">"))))
      = "<img src=\"" ++ (imageLocalRef logoURL ++ ("\"> <img src=\""
          ++ (imageLocalRef logoURL ++ "\">"))) :=
  ⟨by decide, by decide, by decide, by decide, by decide,
    (image_rewrite_all_occurrences logoParse "https://x/logo.png" logoURL
      "<img src=\"" "\"> <img src=\"" "\">"
      (by decide) (by decide) (by decide) (by decide) (by decide)).2⟩

/-- **C6, counterexample.** The claim says no href resolving to a
different *origin* is ever rewritten.  The anchor pass compares
*hostnames* (line 240): on a page of seed `https://example.com/`, the
anchor `http://example.com/a` — same hostname, different origin — is
rewritten to `./a.html`. -/
theorem anchor_origin_claim_counterexample :
    crossAnchorResolve seedURL.href "http://example.com/a"
      = some ⟨"http", "example.com", "", "/a", ""⟩
    ∧ (⟨"http", "example.com", "", "/a", ""⟩ : JSURL).origin ≠ seedURL.origin
    ∧ rewriteAnchors crossAnchorResolve seedURL seedURL
        [some "http://example.com/a"] "<a href=\"http://example.com/a\">x</a>"
      = "<a href=\"./a.html\">x</a>"
    ∧ ("<a href=\"./a.html\">x</a>" : String)
        ≠ "<a href=\"http://example.com/a\">x</a>" := by
  decide

/-- **C6, amended.** Cross-*hostname* protection: an anchor href is
rewritten to `./<slug>.html` only when its resolved hostname equals the
seed's hostname; if every link of a page fails the hostname test (or is
missing/empty/unparsable), the persisted markup is the extracted markup
unchanged. -/
theorem anchor_cross_hostname_untouched
    (resolve : String → String → Option JSURL) (rootURL pageURL : JSURL)
    (links : List (Option String)) (markup : String)
    (h : ∀ oh ∈ links, ∀ s, oh = some s → s ≠ "" →
        ∀ u, resolve pageURL.href s = some u → u.hostname ≠ rootURL.hostname) :
    rewriteAnchors resolve rootURL pageURL links markup = markup := by
  revert h
  induction links generalizing markup with
  | nil => intro _; rfl
  | cons oh ls ih =>
    intro h
    have hstep : anchorStep resolve rootURL pageURL markup oh = markup := by
      cases oh with
      | none => rfl
      | some s =>
        show (if s = "" then markup else _) = markup
        by_cases hs : s = ""
        · rw [if_pos hs]
        · rw [if_neg hs]
          cases hres : resolve pageURL.href s with
          | none => rfl
          | some u =>
            show (if u.hostname = rootURL.hostname then _ else markup) = markup
            rw [if_neg (h (some s) (List.mem_cons_self _ _) s rfl hs u hres)]
    show rewriteAnchors resolve rootURL pageURL ls
        (anchorStep resolve rootURL pageURL markup oh) = markup
    rw [hstep]
    exact ih markup (fun oh' hoh' => h oh' (List.mem_cons_of_mem _ hoh'))

/-- Witness for `anchor_cross_hostname_untouched`: a page whose only
anchor resolves to `https://other.org/z` keeps its markup unchanged. -/
theorem anchor_cross_hostname_untouched_witness :
    rewriteAnchors
      (fun _ h => if h = "https://other.org/z"
        then some ⟨"https", "other.org", "", "/z", ""⟩ else none)
      seedURL seedURL [some "https://other.org/z"]
      "<a href=\"https://other.org/z\">x</a>"
      = "<a href=\"https://other.org/z\">x</a>" := by
  refine anchor_cross_hostname_untouched _ seedURL seedURL _ _ ?_
  intro oh hoh s hs hne u hres
  have hohs : oh = some "https://other.org/z" := by simpa using hoh
  rw [hohs] at hs
  cases hs
  have h2 : (⟨"https", "other.org", "", "/z", ""⟩ : JSURL) = u := by
    simpa using hres
  rw [← h2]
  decide

/-- **C7.** A URL whose navigation fails contributes no page file and no
discovered links: the loop on a failed URL is the loop on the remaining
queue with the URL merely marked visited (the `catch` at lines 173-177
closes the page and returns before any write or link discovery), and no
file in the whole remaining run is ever attributed to that URL. -/
theorem navigation_failure_isolation
    (web : String → Option (List JSURL)) (rootURL u : JSURL)
    (b : Nat) (rest crawled : List JSURL) (files : List (String × String))
    (tr : List MainEv)
    (hu : crawledHas crawled u = false) (hweb : web u.href = none) :
    crawlAux web rootURL (b + 1) (u :: rest) crawled files tr
      = crawlAux web rootURL b rest (crawled ++ [u]) files
          (tr ++ [MainEv.visit u.href])
    ∧ ∀ fe ∈ (crawlAux web rootURL (b + 1) (u :: rest) crawled files tr).files,
        fe ∈ files ∨ fe.1 ≠ u.href := by
  have hsk : skipCrawled crawled (u :: rest) = u :: rest := by
    simp [skipCrawled, hu]
  have heq : crawlAux web rootURL (b + 1) (u :: rest) crawled files tr
      = crawlAux web rootURL b rest (crawled ++ [u]) files
          (tr ++ [MainEv.visit u.href]) := by
    simp only [crawlAux, hsk, hweb]
  refine ⟨heq, ?_⟩
  intro fe hfe
  rw [heq] at hfe
  rcases crawlAux_files web rootURL b rest (crawled ++ [u]) files
      (tr ++ [MainEv.visit u.href]) fe hfe with hl | hr
  · exact Or.inl hl
  · refine Or.inr fun hcontra => ?_
    rw [hcontra, crawledHasHref_append_self] at hr
    cases hr

/-- A site where every navigation fails. -/
def failWeb (_h : String) : Option (List JSURL) := none

/-- Witness for `navigation_failure_isolation`: the seed URL fails to
navigate; it is marked visited, no file is written, and the (empty)
remaining queue is still processed. -/
theorem navigation_failure_isolation_witness :
    crawledHas [] seedURL = false
    ∧ failWeb seedURL.href = none
    ∧ (crawlAux failWeb seedURL 2 [seedURL] [] [] []
        = crawlAux failWeb seedURL 1 [] [seedURL] [] [MainEv.visit seedURL.href]
       ∧ ∀ fe ∈ (crawlAux failWeb seedURL 2 [seedURL] [] [] []).files,
           fe ∈ ([] : List (String × String)) ∨ fe.1 ≠ seedURL.href) :=
  ⟨by decide, rfl,
    navigation_failure_isolation failWeb seedURL seedURL 1 [] [] [] []
      (by decide) rfl⟩

/-- **C8.** The ordering the claim asserts is not enforced by the code:
`lateWriteTrace` satisfies every ordering constraint `handlePage` does
enforce (`legalSchedule`, i.e. the `Promise.all` at line 180 awaits
exactly the write tasks started before it), yet one of the page's
responses (`"late"`, arriving after the `Promise.all` snapshot, e.g.
during `page.evaluate`) has its asset write complete only *after* the
page's markup is persisted.  The fixed 3-second wait at line 199 delays,
but does not await, such writes. -/
theorem asset_write_after_persist_schedule :
    legalSchedule lateWriteTrace = true
    ∧ PageEv.respond "late" ∈ lateWriteTrace
    ∧ idxOf lateWriteTrace PageEv.persistHtml
        < idxOf lateWriteTrace (PageEv.writeDone "late") := by
  decide

/-- **C9.** No batch pause exists: `BATCH_SIZE = 3` is declared (line
12) with a comment promising a pause after that many pages, but the
identifier is never used — the trace of any run contains no `batchPause`
event, and a four-page sequential run shows the only delay is the fixed
3-second wait inside every page's `handlePage`, not a pause after every
third page. -/
theorem no_batch_pause :
    BATCH_SIZE = 3
    ∧ (∀ (web : String → Option (List JSURL)) (rootURL : JSURL) (N : Nat),
        ((crawl web rootURL N).trace).count MainEv.batchPause = 0)
    ∧ (crawl chainWeb seedURL MAX_PAGES).trace
        = [MainEv.visit "https://example.com/", MainEv.sleepMs 3000,
           MainEv.visit "https://example.com/p1", MainEv.sleepMs 3000,
           MainEv.visit "https://example.com/p2", MainEv.sleepMs 3000,
           MainEv.visit "https://example.com/p3", MainEv.sleepMs 3000] := by
  refine ⟨rfl, ?_, by decide⟩
  intro web rootURL N
  simpa using crawlAux_no_batchPause web rootURL N [rootURL] [] [] []

theorem crawledHasHref_eq_false_iff (c : List JSURL) (h : String) :
    crawledHasHref c h = false ↔ ∀ v ∈ c, v.href ≠ h := by
  simp [crawledHasHref]

theorem count_map_href_eq_zero (l : List JSURL) (h : String)
    (hl : ∀ v ∈ l, v.href ≠ h) : (l.map JSURL.href).count h = 0 := by
  rw [List.count_eq_zero]
  intro hmem
  rcases List.mem_map.1 hmem with ⟨v, hv, hvh⟩
  exact hl v hv hvh

theorem mem_count_one_of_ext (crawled ext : List JSURL) (u : JSURL)
    (hu : crawledHas crawled u = false)
    (hext : ∀ v ∈ ext, crawledHas (crawled ++ [u]) v = false) :
    u.href ∈ (((crawled ++ [u]) ++ ext).map JSURL.href)
    ∧ (((crawled ++ [u]) ++ ext).map JSURL.href).count u.href = 1 := by
  have h1 : ∀ v ∈ crawled, v.href ≠ u.href :=
    (crawledHasHref_eq_false_iff crawled u.href).1 hu
  have h2 : ∀ v ∈ ext, v.href ≠ u.href := by
    intro v hv hcontra
    have hf := hext v hv
    rw [crawledHas_eq_href, hcontra, crawledHasHref_append_self] at hf
    cases hf
  constructor
  · simp
  · rw [List.map_append, List.map_append, List.count_append, List.count_append]
    rw [count_map_href_eq_zero crawled u.href h1,
      count_map_href_eq_zero ext u.href h2]
    simp

/-- **C10.** Every dequeued not-yet-visited URL is added to `crawled`
*before* `handlePage` runs (line 90 precedes line 95) — the loop on
`u :: rest` is, whatever the navigation outcome, a loop continuing from
`crawled ++ [u]`.  Consequently a URL whose processing fails still
occupies exactly one slot of the budget: its href appears exactly once
in the final visited list (so it is counted in the final report and is
never processed again), and no later enqueue ever re-adds it. -/
theorem visited_before_processing
    (web : String → Option (List JSURL)) (rootURL u : JSURL)
    (b : Nat) (rest crawled : List JSURL) (files : List (String × String))
    (tr : List MainEv)
    (hu : crawledHas crawled u = false) :
    (crawlAux web rootURL (b + 1) (u :: rest) crawled files tr
      = match web u.href with
        | none => crawlAux web rootURL b rest (crawled ++ [u]) files
            (tr ++ [MainEv.visit u.href])
        | some links => crawlAux web rootURL b
            (enqueueLinks rootURL links rest (crawled ++ [u])) (crawled ++ [u])
            (files ++ [(u.href, localHtmlFile u)])
            (tr ++ [MainEv.visit u.href, MainEv.sleepMs 3000]))
    ∧ u.href ∈ ((crawlAux web rootURL (b + 1) (u :: rest) crawled files
        tr).crawled.map JSURL.href)
    ∧ ((crawlAux web rootURL (b + 1) (u :: rest) crawled files
        tr).crawled.map JSURL.href).count u.href = 1
    ∧ (∀ (links q : List JSURL), ∀ v ∈ enqueueLinks rootURL links q (crawled ++ [u]),
        v ∈ q ∨ v.href ≠ u.href) := by
  have hsk : skipCrawled crawled (u :: rest) = u :: rest := by
    simp [skipCrawled, hu]
  refine ⟨?_, ?_, ?_, ?_⟩
  · cases hweb : web u.href <;> simp only [crawlAux, hsk, hweb]
  · cases hweb : web u.href with
    | none =>
      have heq : crawlAux web rootURL (b + 1) (u :: rest) crawled files tr
          = crawlAux web rootURL b rest (crawled ++ [u]) files
              (tr ++ [MainEv.visit u.href]) := by
        simp only [crawlAux, hsk, hweb]
      rw [heq]
      rcases crawlAux_crawled_ext web rootURL b rest (crawled ++ [u]) files
          (tr ++ [MainEv.visit u.href]) with ⟨ext, hc, hext⟩
      rw [hc]
      exact (mem_count_one_of_ext crawled ext u hu hext).1
    | some links =>
      have heq : crawlAux web rootURL (b + 1) (u :: rest) crawled files tr
          = crawlAux web rootURL b
              (enqueueLinks rootURL links rest (crawled ++ [u])) (crawled ++ [u])
              (files ++ [(u.href, localHtmlFile u)])
              (tr ++ [MainEv.visit u.href, MainEv.sleepMs 3000]) := by
        simp only [crawlAux, hsk, hweb]
      rw [heq]
      rcases crawlAux_crawled_ext web rootURL b
          (enqueueLinks rootURL links rest (crawled ++ [u])) (crawled ++ [u])
          (files ++ [(u.href, localHtmlFile u)])
          (tr ++ [MainEv.visit u.href, MainEv.sleepMs 3000]) with ⟨ext, hc, hext⟩
      rw [hc]
      exact (mem_count_one_of_ext crawled ext u hu hext).1
  · cases hweb : web u.href with
    | none =>
      have heq : crawlAux web rootURL (b + 1) (u :: rest) crawled files tr
          = crawlAux web rootURL b rest (crawled ++ [u]) files
              (tr ++ [MainEv.visit u.href]) := by
        simp only [crawlAux, hsk, hweb]
      rw [heq]
      rcases crawlAux_crawled_ext web rootURL b rest (crawled ++ [u]) files
          (tr ++ [MainEv.visit u.href]) with ⟨ext, hc, hext⟩
      rw [hc]
      exact (mem_count_one_of_ext crawled ext u hu hext).2
    | some links =>
      have heq : crawlAux web rootURL (b + 1) (u :: rest) crawled files tr
          = crawlAux web rootURL b
              (enqueueLinks rootURL links rest (crawled ++ [u])) (crawled ++ [u])
              (files ++ [(u.href, localHtmlFile u)])
              (tr ++ [MainEv.visit u.href, MainEv.sleepMs 3000]) := by
        simp only [crawlAux, hsk, hweb]
      rw [heq]
      rcases crawlAux_crawled_ext web rootURL b
          (enqueueLinks rootURL links rest (crawled ++ [u])) (crawled ++ [u])
          (files ++ [(u.href, localHtmlFile u)])
          (tr ++ [MainEv.visit u.href, MainEv.sleepMs 3000]) with ⟨ext, hc, hext⟩
      rw [hc]
      exact (mem_count_one_of_ext crawled ext u hu hext).2
  · intro links q v hv
    rcases enqueueLinks_mem rootURL links q (crawled ++ [u]) v hv with hl | hr
    · exact Or.inl hl
    · refine Or.inr fun hcontra => ?_
      have h2 := hr.2
      rw [crawledHas_eq_href, hcontra, crawledHasHref_append_self] at h2
      cases h2

/-- Witness for `visited_before_processing` at a failing seed
navigation. -/
theorem visited_before_processing_witness :
    crawledHas [] seedURL = false
    ∧ (seedURL.href ∈ ((crawlAux failWeb seedURL 2 [seedURL] [] [] []).crawled.map
        JSURL.href)
       ∧ ((crawlAux failWeb seedURL 2 [seedURL] [] [] []).crawled.map
        JSURL.href).count seedURL.href = 1) :=
  ⟨by decide,
    ⟨(visited_before_processing failWeb seedURL seedURL 1 [] [] [] []
        (by decide)).2.1,
      (visited_before_processing failWeb seedURL seedURL 1 [] [] [] []
        (by decide)).2.2.1⟩⟩

end SiteClone
